import Mathlib

/-!
Verification of the MeiliES command translation layer
(`src/meilies/src/command.rs`): the decoder `FromResp for Command`
(`from_resp`), the encoder `Into<RespValue> for Command`, and the error
taxonomy `RespCommandConvertError`.

Bytes are modelled as natural numbers (`List Nat` for byte strings),
characters as Lean `Char` (Unicode scalar values, as in Rust `char`).
Collaborators that are not part of the source under verification
(the RESP value model, the stream-addressing parsing, and the Rust
standard library's UTF-8 validation and `str::to_lowercase`) are
modelled explicitly; each such definition says so in its doc comment.
-/

namespace MeiliES

/-! ### UTF-8 encoding and validation

Models Rust `str::from_utf8` (validation of a byte sequence as UTF-8)
and the UTF-8 byte encoding of a Rust `String` / `str`. The decoder
accepts exactly the well-formed sequences: continuation bytes in
`0x80..=0xBF`, no overlong forms, no surrogate code points, maximum
scalar value `0x10FFFF`.
-/

/-- UTF-8 encoding of a single Unicode scalar value, by arithmetic on
the code point (1 to 4 bytes). -/
def utf8EncodeChar (c : Char) : List Nat :=
  let n := c.toNat
  if n < 0x80 then [n]
  else if n < 0x800 then [0xC0 + n / 64, 0x80 + n % 64]
  else if n < 0x10000 then
    [0xE0 + n / 4096, 0x80 + (n / 64) % 64, 0x80 + n % 64]
  else
    [0xF0 + n / 262144, 0x80 + (n / 4096) % 64, 0x80 + (n / 64) % 64, 0x80 + n % 64]

/-- UTF-8 encoding of a character sequence: the concatenation of the
encodings of its characters (the byte content of a Rust `String`). -/
def utf8Encode : List Char → List Nat
  | [] => []
  | c :: cs => utf8EncodeChar c ++ utf8Encode cs

/-- Modelled from the Rust standard library: UTF-8 validation as in
`str::from_utf8`, returning the decoded scalar values on success and
`none` on any ill-formed sequence (bad leading byte, truncated or bad
continuation bytes, overlong encodings, surrogates, out-of-range
values). The fuel argument bounds the recursion; one unit is consumed
per decoded character, so fuel equal to the byte length always
suffices. -/
def utf8DecodeAux : Nat → List Nat → Option (List Char)
  | _, [] => some []
  | 0, _ :: _ => none
  | fuel + 1, b :: rest =>
    if b < 0x80 then
      (utf8DecodeAux fuel rest).map (Char.ofNat b :: ·)
    else if 0xC2 ≤ b ∧ b ≤ 0xDF then
      match rest with
      | b1 :: rest1 =>
        if 0x80 ≤ b1 ∧ b1 ≤ 0xBF then
          (utf8DecodeAux fuel rest1).map (Char.ofNat ((b - 0xC0) * 64 + (b1 - 0x80)) :: ·)
        else none
      | [] => none
    else if 0xE0 ≤ b ∧ b ≤ 0xEF then
      match rest with
      | b1 :: b2 :: rest2 =>
        let n := (b - 0xE0) * 4096 + (b1 - 0x80) * 64 + (b2 - 0x80)
        if (0x80 ≤ b1 ∧ b1 ≤ 0xBF) ∧ (0x80 ≤ b2 ∧ b2 ≤ 0xBF) ∧
            0x800 ≤ n ∧ ¬ (0xD800 ≤ n ∧ n ≤ 0xDFFF) then
          (utf8DecodeAux fuel rest2).map (Char.ofNat n :: ·)
        else none
      | _ => none
    else if 0xF0 ≤ b ∧ b ≤ 0xF4 then
      match rest with
      | b1 :: b2 :: b3 :: rest3 =>
        let n := (b - 0xF0) * 262144 + (b1 - 0x80) * 4096 + (b2 - 0x80) * 64 + (b3 - 0x80)
        if (0x80 ≤ b1 ∧ b1 ≤ 0xBF) ∧ (0x80 ≤ b2 ∧ b2 ≤ 0xBF) ∧ (0x80 ≤ b3 ∧ b3 ≤ 0xBF) ∧
            0x10000 ≤ n ∧ n ≤ 0x10FFFF then
          (utf8DecodeAux fuel rest3).map (Char.ofNat n :: ·)
        else none
      | _ => none
    else none

/-- Modelled from the Rust standard library: `str::from_utf8` on a byte
sequence, as a total function with sufficient fuel. -/
def utf8Decode (bs : List Nat) : Option (List Char) :=
  utf8DecodeAux bs.length bs

/-! ### Lowercase normalization

Models the call `str::to_lowercase` on the command name
(`command.rs` line 118). Rust's `to_lowercase` applies the
locale-independent Unicode lowercase mapping character by character
(it is not restricted to ASCII). The model is exact on the ASCII
range; of the non-ASCII code points whose Unicode lowercase differs
from themselves, only U+00C0 LATIN CAPITAL LETTER A WITH GRAVE
(mapped by Unicode, and by Rust, to U+00E0) is tabulated here, as the
representative used in the theorems below; the remaining such code
points do not occur in any statement of this development and are left
at the identity. -/
def charToLowercase (c : Char) : List Char :=
  if 65 ≤ c.toNat ∧ c.toNat ≤ 90 then [Char.ofNat (c.toNat + 32)]
  else if c.toNat = 0xC0 then [Char.ofNat 0xE0]
  else [c]

/-- Modelled from the Rust standard library: `str::to_lowercase`,
concatenating the per-character lowercase mappings. -/
def rustToLowercase : List Char → List Char
  | [] => []
  | c :: cs => charToLowercase c ++ rustToLowercase cs

/-! ### Decimal rendering and reading of start positions

Used by the stream-addressing model below: the canonical text of an
event number in a stream-subscription specifier. -/

/-- Decimal digit character for `n % 10`. -/
def digitChar (n : Nat) : Char := Char.ofNat (48 + n % 10)

/-- Decimal digits of a number, most significant first; the fuel bounds
the recursion and `n + 1` units always suffice for input `n`. -/
def reprNatAux : Nat → Nat → List Char
  | 0, _ => []
  | fuel + 1, n =>
    if n < 10 then [digitChar n]
    else reprNatAux fuel (n / 10) ++ [digitChar (n % 10)]

/-- Canonical decimal rendering of a natural number. -/
def reprNat (n : Nat) : List Char := reprNatAux (n + 1) n

/-- Value of a decimal digit character, `none` for a non-digit. -/
def digitVal (c : Char) : Option Nat :=
  if 48 ≤ c.toNat ∧ c.toNat ≤ 57 then some (c.toNat - 48) else none

/-- Reads decimal digits left to right, accumulating the value;
fails on the first non-digit character. -/
def parseNatFrom (acc : Nat) : List Char → Option Nat
  | [] => some acc
  | c :: rest =>
    match digitVal c with
    | none => none
    | some d => parseNatFrom (acc * 10 + d) rest

/-- Reads a non-empty all-digit character sequence as a natural
number. -/
def parseNat (cs : List Char) : Option Nat :=
  if cs.isEmpty then none else parseNatFrom 0 cs

/-! ### Stream addressing (external collaborator)

The types `StreamName`, `Stream`, `StreamNameError` and
`ParseStreamError` live in `meilies/src/stream`, which is not part of
the source under verification; they are modelled from the spec:
"parses UTF-8 text into a validated stream identifier, and into a
stream-subscription specifier (identifier plus optional start
position); reports its own structured parse errors". The
`ParseStreamError::StreamNameError` constructor is visible in
`command.rs` line 84 and is kept. -/

/-- Modelled from the spec: characters admitted in a validated stream
identifier (ASCII letters, digits, hyphen, underscore; in particular
no colon, which separates the optional start position in a
subscription specifier). -/
def isNameChar (c : Char) : Bool :=
  decide ((97 ≤ c.toNat ∧ c.toNat ≤ 122) ∨ (65 ≤ c.toNat ∧ c.toNat ≤ 90) ∨
    (48 ≤ c.toNat ∧ c.toNat ≤ 57) ∨ c = '-' ∨ c = '_')

/-- Modelled from the spec: a valid stream identifier text is non-empty
and made of admitted characters. -/
def validStreamName (cs : List Char) : Bool :=
  !cs.isEmpty && cs.all isNameChar

/-- Modelled from the spec: a validated stream identifier
(`StreamName` in `meilies/src/stream`). -/
structure StreamName where
  chars : List Char
deriving DecidableEq

/-- Modelled from the spec: the structured errors of stream-identifier
validation (`StreamNameError` in `meilies/src/stream`). -/
inductive StreamNameError
  | emptyName
  | invalidChar (c : Char)
deriving DecidableEq

/-- Modelled from the spec: the structured errors of
stream-subscription-specifier text analysis (`ParseStreamError` in
`meilies/src/stream`); the `streamNameError` constructor appears in
`command.rs` line 84. -/
inductive ParseStreamError
  | streamNameError (e : StreamNameError)
  | invalidReadFrom
deriving DecidableEq

/-- Modelled from the spec: `StreamName::from_str`, validating a text
as a stream identifier. -/
def StreamName.fromStr (cs : List Char) : Except StreamNameError StreamName :=
  if cs.isEmpty then .error .emptyName
  else
    match cs.find? (fun c => ! isNameChar c) with
    | some c => .error (.invalidChar c)
    | none => .ok ⟨cs⟩

/-- Modelled from the spec: a stream-subscription specifier
(`Stream` in `meilies/src/stream`): a stream identifier plus an
optional start position. -/
structure Stream where
  name : StreamName
  readFrom : Option Nat
deriving DecidableEq

/-- Splits a text at its first colon, returning the parts before and
after it, or `none` when there is no colon. -/
def splitAtColon : List Char → Option (List Char × List Char)
  | [] => none
  | c :: rest =>
    if c = ':' then some ([], rest)
    else
      match splitAtColon rest with
      | none => none
      | some (a, b) => some (c :: a, b)

/-- Modelled from the spec: `Stream::from_str`, reading a
stream-subscription specifier: a stream identifier, optionally
followed by a colon and a decimal start position. -/
def Stream.fromStr (cs : List Char) : Except ParseStreamError Stream :=
  match splitAtColon cs with
  | none =>
    match StreamName.fromStr cs with
    | .error e => .error (.streamNameError e)
    | .ok n => .ok ⟨n, none⟩
  | some (pre, post) =>
    match StreamName.fromStr pre with
    | .error e => .error (.streamNameError e)
    | .ok n =>
      match parseNat post with
      | none => .error .invalidReadFrom
      | some k => .ok ⟨n, some k⟩

/-- Modelled from the spec: the canonical text of a specifier
(`Stream::to_string`): the identifier alone, or the identifier, a
colon and the decimal start position. -/
def Stream.toChars (s : Stream) : List Char :=
  match s.readFrom with
  | none => s.name.chars
  | some k => s.name.chars ++ ':' :: reprNat k

/-! ### The RESP wire value model (external collaborator)

`RespValue` and `FromResp` live in `meilies/src/resp`, which is not
part of the source under verification. -/

/-- Modelled from the spec: the tagged wire value type
(`RespValue` in `meilies/src/resp`): bulk byte-string, array, and
the remaining wire shapes which the decoder rejects. -/
inductive RespValue
  | bulkString (bytes : List Nat)
  | array (items : List RespValue)
  | simpleString (text : List Char)
  | integer (i : Int)
  | nil

/-- Modelled from the spec: interpreting a list of wire values as
byte-strings, element by element; fails on any element that is not a
bulk byte-string. -/
def extractByteStrings : List RespValue → Option (List (List Nat))
  | [] => some []
  | .bulkString bs :: rest => (extractByteStrings rest).map (bs :: ·)
  | _ :: _ => none

/-- Modelled from the spec: `Vec::<Vec<u8>>::from_resp`
("interpret this value as an ordered sequence of byte-strings"):
succeeds exactly on an array whose elements are all bulk
byte-strings. -/
def fromRespByteStrings : RespValue → Option (List (List Nat))
  | .array items => extractByteStrings items
  | _ => none

/-! ### The command model (`command.rs` lines 7-10) -/

/-- The closed command type (`Command`, `command.rs` lines 7-10):
`Publish { stream: StreamName, event: Vec<u8> }` and
`Subscribe { streams: Vec<Stream> }`. -/
inductive Command
  | publish (stream : StreamName) (event : List Nat)
  | subscribe (streams : List Stream)
deriving DecidableEq

/-- The decoder error taxonomy (`RespCommandConvertError`,
`command.rs` lines 54-62). Rust's `InvalidUtf8String` carries a
`str::Utf8Error` position value produced by the standard library; no
claim inspects it, so the constructor here is nullary. -/
inductive RespCommandConvertError
  | invalidRespType
  | missingCommandName
  | unknownCommand (name : List Char)
  | invalidStream (e : ParseStreamError)
  | invalidNumberOfArguments (expected : Nat)
  | invalidUtf8String
deriving DecidableEq

deriving instance DecidableEq for Except

/-! ### The encoder (`Into<RespValue> for Command`, `command.rs` lines 33-52) -/

/-- The encoder (`command.rs` lines 33-52): `Publish` becomes the
array `["publish", stream bytes, event bytes]` (the stream name via
`String::into_bytes`, i.e. its UTF-8 bytes; the event verbatim);
`Subscribe` becomes `"subscribe"` followed by the UTF-8 bytes of each
specifier's `to_string`, in list order. -/
def commandIntoResp : Command → RespValue
  | .publish stream event =>
    .array [.bulkString (utf8Encode "publish".toList),
            .bulkString (utf8Encode stream.chars),
            .bulkString event]
  | .subscribe streams =>
    .array (.bulkString (utf8Encode "subscribe".toList) ::
            streams.map (fun s => .bulkString (utf8Encode s.toChars)))

/-! ### The decoder (`FromResp for Command`, `command.rs` lines 104-145) -/

/-- The `subscribe` argument loop (`command.rs` lines 134-139): each
remaining byte-string is decoded as UTF-8 (first failure wins with
`InvalidUtf8String`), then read as a specifier via `Stream::from_str`
(failure wrapped as `InvalidStream` by the `From<ParseStreamError>`
conversion, `command.rs` lines 76-80); results are collected in input
order. -/
def parseStreams : List (List Nat) → Except RespCommandConvertError (List Stream)
  | [] => .ok []
  | bytes :: rest =>
    match utf8Decode bytes with
    | none => .error .invalidUtf8String
    | some text =>
      match Stream.fromStr text with
      | .error e => .error (.invalidStream e)
      | .ok s => (parseStreams rest).map (s :: ·)

/-- The decoder `from_resp` (`command.rs` lines 107-144): convert the
wire value to a byte-string sequence (else `InvalidRespType`); take
the first element as the command name (else `MissingCommandName`),
decode it as UTF-8 (else `InvalidUtf8String`) and lowercase it via
`str::to_lowercase`; dispatch: `publish` requires exactly two further
elements (else `InvalidNumberOfArguments { expected: 2 }`), decodes
the first as UTF-8 and validates it via `StreamName::from_str`
(failure wrapped through `From<StreamNameError>`, `command.rs` lines
82-86), and takes the event bytes verbatim; `subscribe` reads all
remaining elements as specifiers; any other name yields
`UnknownCommand` with the lowercased text. -/
def fromResp (value : RespValue) : Except RespCommandConvertError Command :=
  match fromRespByteStrings value with
  | none => .error .invalidRespType
  | some [] => .error .missingCommandName
  | some (cmd :: args) =>
    match utf8Decode cmd with
    | none => .error .invalidUtf8String
    | some chars =>
      let command := rustToLowercase chars
      if command = "publish".toList then
        match args with
        | [stream, event] =>
          match utf8Decode stream with
          | none => .error .invalidUtf8String
          | some text =>
            match StreamName.fromStr text with
            | .error e => .error (.invalidStream (.streamNameError e))
            | .ok s => .ok (.publish s event)
        | _ => .error (.invalidNumberOfArguments 2)
      else if command = "subscribe".toList then
        (parseStreams args).map .subscribe
      else .error (.unknownCommand command)

/-! ### Auxiliary predicates used only in the statements below -/

/-- Whether a wire value is a bulk byte-string. -/
def RespValue.isBulkString : RespValue → Bool
  | .bulkString _ => true
  | _ => false

/-- Two characters that are equal, or are the upper- and lowercase
forms of one ASCII letter. -/
def asciiCaseEqChar (a b : Char) : Bool :=
  decide (a = b ∨ (65 ≤ a.toNat ∧ a.toNat ≤ 90 ∧ b.toNat = a.toNat + 32) ∨
    (65 ≤ b.toNat ∧ b.toNat ≤ 90 ∧ a.toNat = b.toNat + 32))

/-- Two texts of equal length that differ only in ASCII letter
case. -/
def asciiCaseEqStr : List Char → List Char → Bool
  | [], [] => true
  | a :: ta, b :: tb => asciiCaseEqChar a b && asciiCaseEqStr ta tb
  | _, _ => false

/-! ### Helper lemmas: characters and UTF-8 -/

theorem toNat_ofNat_valid (n : Nat) (h : n.isValidChar) : (Char.ofNat n).toNat = n := by
  simp [Char.ofNat, h, Char.ofNatAux, Char.toNat]
  rfl

theorem toNat_ofNat_small (n : Nat) (h : n < 0xD800) : (Char.ofNat n).toNat = n :=
  toNat_ofNat_valid n (Or.inl h)

theorem isNameChar_lt_128 (c : Char) (h : isNameChar c = true) : c.toNat < 128 := by
  simp only [isNameChar, decide_eq_true_eq] at h
  rcases h with h | h | h | h | h
  · omega
  · omega
  · omega
  · subst h; decide
  · subst h; decide

theorem isNameChar_ne_colon (c : Char) (h : isNameChar c = true) : c ≠ ':' := by
  intro hc
  subst hc
  simp only [isNameChar, decide_eq_true_eq] at h
  rcases h with h | h | h | h | h <;> (revert h; decide)

theorem utf8EncodeChar_ascii (c : Char) (h : c.toNat < 128) :
    utf8EncodeChar c = [c.toNat] := by
  simp [utf8EncodeChar, h]

theorem utf8DecodeAux_encode_ascii (cs : List Char) :
    ∀ fuel, cs.length ≤ fuel → (∀ c ∈ cs, c.toNat < 128) →
    utf8DecodeAux fuel (utf8Encode cs) = some cs := by
  induction cs with
  | nil =>
    intro fuel _ _
    simp [utf8Encode, utf8DecodeAux]
  | cons c cs ih =>
    intro fuel hfuel hascii
    have hc : c.toNat < 128 := hascii c (List.mem_cons_self c cs)
    match fuel with
    | 0 => simp at hfuel
    | fuel + 1 =>
      have hrest : ∀ x ∈ cs, x.toNat < 128 := fun x hx => hascii x (List.mem_cons_of_mem c hx)
      have hlen : cs.length ≤ fuel := by simp at hfuel; omega
      rw [utf8Encode, utf8EncodeChar_ascii c hc]
      have henc : c.toNat :: utf8Encode cs = [c.toNat] ++ utf8Encode cs := rfl
      cases henc2 : utf8Encode cs with
      | nil =>
        have : cs = [] := by
          cases cs with
          | nil => rfl
          | cons d ds =>
            rw [utf8Encode] at henc2
            have hd : d.toNat < 128 := hrest d (List.mem_cons_self d ds)
            rw [utf8EncodeChar_ascii d hd] at henc2
            simp at henc2
        subst this
        simp [utf8DecodeAux, hc]
      | cons b bs =>
        rw [← henc2]
        show utf8DecodeAux (fuel + 1) (c.toNat :: utf8Encode cs) = some (c :: cs)
        simp only [utf8DecodeAux]
        rw [if_pos hc, ih fuel hlen hrest]
        simp [Char.ofNat_toNat]

theorem utf8Encode_length_ge (cs : List Char) : cs.length ≤ (utf8Encode cs).length := by
  induction cs with
  | nil => simp [utf8Encode]
  | cons c cs ih =>
    rw [utf8Encode, List.length_append]
    have : 1 ≤ (utf8EncodeChar c).length := by
      rw [utf8EncodeChar]
      split
      · simp
      · split
        · simp
        · split <;> simp
    simp only [List.length_cons]
    omega

theorem utf8Decode_encode_ascii (cs : List Char) (h : ∀ c ∈ cs, c.toNat < 128) :
    utf8Decode (utf8Encode cs) = some cs :=
  utf8DecodeAux_encode_ascii cs (utf8Encode cs).length (utf8Encode_length_ge cs) h

/-! ### Helper lemmas: decimal rendering round trip -/

theorem digitVal_digitChar (m : Nat) : digitVal (digitChar m) = some (m % 10) := by
  have ht : (Char.ofNat (48 + m % 10)).toNat = 48 + m % 10 :=
    toNat_ofNat_small (48 + m % 10) (by omega)
  rw [digitChar, digitVal, ht, if_pos (by omega)]
  congr 1
  omega

theorem parseNatFrom_append (xs ys : List Char) :
    ∀ acc, parseNatFrom acc (xs ++ ys) =
      (parseNatFrom acc xs).bind (fun a => parseNatFrom a ys) := by
  induction xs with
  | nil => intro acc; simp [parseNatFrom]
  | cons c rest ih =>
    intro acc
    rw [List.cons_append, parseNatFrom, parseNatFrom]
    cases digitVal c with
    | none => simp
    | some d => simp [ih]

theorem parseNatFrom_reprNatAux :
    ∀ fuel n acc, n < fuel →
      parseNatFrom acc (reprNatAux fuel n) =
        some (acc * 10 ^ (reprNatAux fuel n).length + n) := by
  intro fuel
  induction fuel with
  | zero => intro n acc h; omega
  | succ fuel ih =>
    intro n acc h
    by_cases hn : n < 10
    · rw [reprNatAux, if_pos hn]
      simp only [parseNatFrom, digitVal_digitChar, Nat.mod_eq_of_lt hn]
      simp [parseNatFrom]
    · rw [reprNatAux, if_neg hn]
      have hlt : n / 10 < fuel := by omega
      rw [parseNatFrom_append, ih (n / 10) acc hlt]
      rw [Option.some_bind]
      simp only [parseNatFrom, digitVal_digitChar, Nat.mod_mod_of_dvd n (dvd_refl 10)]
      congr 1
      simp only [List.length_append, List.length_cons, List.length_nil, Nat.zero_add]
      have hp : (acc * 10 ^ (reprNatAux fuel (n / 10)).length + n / 10) * 10 + n % 10 =
          acc * (10 ^ (reprNatAux fuel (n / 10)).length * 10) + (n / 10 * 10 + n % 10) := by
        ring
      rw [hp, Nat.div_add_mod', pow_succ]

theorem reprNatAux_ne_nil (fuel n : Nat) (h : 0 < fuel) : reprNatAux fuel n ≠ [] := by
  match fuel with
  | fuel + 1 =>
    rw [reprNatAux]
    split
    · simp
    · simp

theorem parseNat_reprNat (n : Nat) : parseNat (reprNat n) = some n := by
  rw [reprNat, parseNat, if_neg]
  · rw [parseNatFrom_reprNatAux (n + 1) n 0 (by omega)]
    simp
  · simp only [List.isEmpty_iff]
    exact reprNatAux_ne_nil (n + 1) n (by omega)

/-! ### Helper lemmas: stream specifier round trip -/

theorem splitAtColon_none (cs : List Char) (h : ∀ c ∈ cs, c ≠ ':') :
    splitAtColon cs = none := by
  induction cs with
  | nil => rfl
  | cons c rest ih =>
    rw [splitAtColon, if_neg (h c (List.mem_cons_self c rest))]
    rw [ih (fun x hx => h x (List.mem_cons_of_mem c hx))]

theorem splitAtColon_append (pre post : List Char) (h : ∀ c ∈ pre, c ≠ ':') :
    splitAtColon (pre ++ ':' :: post) = some (pre, post) := by
  induction pre with
  | nil => simp [splitAtColon]
  | cons c rest ih =>
    rw [List.cons_append, splitAtColon, if_neg (h c (List.mem_cons_self c rest))]
    rw [ih (fun x hx => h x (List.mem_cons_of_mem c hx))]

theorem validStreamName_spec (cs : List Char) (h : validStreamName cs = true) :
    cs ≠ [] ∧ ∀ c ∈ cs, isNameChar c = true := by
  rw [validStreamName, Bool.and_eq_true] at h
  obtain ⟨h1, h2⟩ := h
  constructor
  · simp only [Bool.not_eq_true', List.isEmpty_eq_false_iff_exists_mem] at h1
    intro hnil
    subst hnil
    simp at h1
  · exact fun c hc => by
      rw [List.all_eq_true] at h2
      exact h2 c hc

theorem streamNameFromStr_valid (cs : List Char) (h : validStreamName cs = true) :
    StreamName.fromStr cs = .ok ⟨cs⟩ := by
  obtain ⟨hne, hall⟩ := validStreamName_spec cs h
  rw [StreamName.fromStr, if_neg (by simp only [List.isEmpty_iff]; exact hne)]
  have hfind : cs.find? (fun c => ! isNameChar c) = none := by
    rw [List.find?_eq_none]
    intro x hx
    simp [hall x hx]
  rw [hfind]

theorem validStreamName_no_colon (cs : List Char) (h : validStreamName cs = true) :
    ∀ c ∈ cs, c ≠ ':' := by
  obtain ⟨_, hall⟩ := validStreamName_spec cs h
  exact fun c hc => isNameChar_ne_colon c (hall c hc)

theorem streamFromStr_toChars (s : Stream) (h : validStreamName s.name.chars = true) :
    Stream.fromStr s.toChars = .ok s := by
  obtain ⟨name, readFrom⟩ := s
  obtain ⟨chars⟩ := name
  cases readFrom with
  | none =>
    rw [Stream.toChars, Stream.fromStr]
    simp only at h ⊢
    rw [splitAtColon_none chars (validStreamName_no_colon chars h)]
    rw [streamNameFromStr_valid chars h]
  | some k =>
    rw [Stream.toChars, Stream.fromStr]
    simp only at h ⊢
    rw [splitAtColon_append chars (reprNat k) (validStreamName_no_colon chars h)]
    simp only [streamNameFromStr_valid chars h, parseNat_reprNat]

theorem reprNatAux_digits (fuel : Nat) :
    ∀ n c, c ∈ reprNatAux fuel n → c.toNat < 128 := by
  induction fuel with
  | zero => intro n c hc; simp [reprNatAux] at hc
  | succ fuel ih =>
    intro n c hc
    rw [reprNatAux] at hc
    split at hc
    · simp only [List.mem_singleton] at hc
      subst hc
      rw [digitChar, toNat_ofNat_small (48 + n % 10) (by omega)]
      omega
    · rw [List.mem_append] at hc
      rcases hc with hc | hc
      · exact ih (n / 10) c hc
      · simp only [List.mem_singleton] at hc
        subst hc
        rw [digitChar, toNat_ofNat_small (48 + n % 10 % 10) (by omega)]
        omega

theorem streamToChars_ascii (s : Stream) (h : validStreamName s.name.chars = true) :
    ∀ c ∈ s.toChars, c.toNat < 128 := by
  obtain ⟨_, hall⟩ := validStreamName_spec s.name.chars h
  intro c hc
  rw [Stream.toChars] at hc
  cases hrf : s.readFrom with
  | none =>
    rw [hrf] at hc
    exact isNameChar_lt_128 c (hall c hc)
  | some k =>
    rw [hrf] at hc
    rw [List.mem_append] at hc
    rcases hc with hc | hc
    · exact isNameChar_lt_128 c (hall c hc)
    · rw [List.mem_cons] at hc
      rcases hc with hc | hc
      · subst hc; decide
      · exact reprNatAux_digits (k + 1) k c hc

/-! ### Helper lemmas: lowercase normalization -/

theorem charToLowercase_caseEq (a b : Char) (h : asciiCaseEqChar a b = true) :
    charToLowercase a = charToLowercase b := by
  rw [asciiCaseEqChar, decide_eq_true_eq] at h
  rcases h with h | ⟨h1, h2, h3⟩ | ⟨h1, h2, h3⟩
  · rw [h]
  · rw [charToLowercase, if_pos ⟨h1, h2⟩, charToLowercase,
      if_neg (by omega), if_neg (by omega), ← h3, Char.ofNat_toNat]
  · rw [charToLowercase, if_neg (by omega), if_neg (by omega),
      charToLowercase, if_pos ⟨h1, h2⟩, ← h3, Char.ofNat_toNat]

theorem rustToLowercase_caseEq (ta : List Char) :
    ∀ tb, asciiCaseEqStr ta tb = true → rustToLowercase ta = rustToLowercase tb := by
  induction ta with
  | nil =>
    intro tb h
    cases tb with
    | nil => rfl
    | cons b bs => simp [asciiCaseEqStr] at h
  | cons a rest ih =>
    intro tb h
    cases tb with
    | nil => simp [asciiCaseEqStr] at h
    | cons b bs =>
      rw [asciiCaseEqStr, Bool.and_eq_true] at h
      rw [rustToLowercase, rustToLowercase,
        charToLowercase_caseEq a b h.1, ih bs h.2]

/-! ### Helper lemmas: byte-string extraction -/

theorem extractByteStrings_map (bss : List (List Nat)) :
    extractByteStrings (bss.map RespValue.bulkString) = some bss := by
  induction bss with
  | nil => rfl
  | cons bs rest ih => simp [extractByteStrings, ih]

theorem extractByteStrings_none_of_mem (items : List RespValue) (x : RespValue)
    (hx : x ∈ items) (hb : x.isBulkString = false) :
    extractByteStrings items = none := by
  induction items with
  | nil => simp at hx
  | cons y rest ih =>
    rw [List.mem_cons] at hx
    rcases hx with hx | hx
    · subst hx
      cases x with
      | bulkString bs => simp [RespValue.isBulkString] at hb
      | array _ => rfl
      | simpleString _ => rfl
      | integer _ => rfl
      | nil => rfl
    · cases y with
      | bulkString bs => rw [extractByteStrings, ih hx]; rfl
      | array _ => rfl
      | simpleString _ => rfl
      | integer _ => rfl
      | nil => rfl

/-! ### Helper lemma: the subscribe loop on encoded specifiers -/

theorem parseStreams_encoded (streams : List Stream)
    (h : ∀ s ∈ streams, validStreamName s.name.chars = true) :
    parseStreams (streams.map (fun s => utf8Encode s.toChars)) = .ok streams := by
  induction streams with
  | nil => rfl
  | cons s rest ih =>
    have hs : validStreamName s.name.chars = true := h s (List.mem_cons_self s rest)
    have hrest : ∀ x ∈ rest, validStreamName x.name.chars = true :=
      fun x hx => h x (List.mem_cons_of_mem s hx)
    rw [List.map_cons, parseStreams]
    simp only [utf8Decode_encode_ascii s.toChars (streamToChars_ascii s hs),
      streamFromStr_toChars s hs, ih hrest]
    rfl

/-! ### Helper lemmas: decoder dispatch -/

theorem fromRespByteStrings_cons (cmd : List Nat) (args : List (List Nat)) :
    fromRespByteStrings (.array (.bulkString cmd :: args.map RespValue.bulkString)) =
      some (cmd :: args) := by
  simp [fromRespByteStrings, extractByteStrings, extractByteStrings_map]

theorem publish_count_helper (cmd : List Nat) (name : List Char) (args : List (List Nat))
    (hname : utf8Decode cmd = some name)
    (hlow : rustToLowercase name = "publish".toList)
    (hlen : args.length ≠ 2) :
    fromResp (.array (.bulkString cmd :: args.map RespValue.bulkString)) =
      .error (.invalidNumberOfArguments 2) := by
  have hbytes := fromRespByteStrings_cons cmd args
  simp only [fromResp]
  rw [hbytes]
  simp only [hname, hlow]
  rcases args with _ | ⟨a, _ | ⟨b, _ | ⟨c, t⟩⟩⟩
  · simp
  · simp
  · simp at hlen
  · simp

theorem parseStreams_error_after (sb : List Nat) (rest : List (List Nat))
    (text : List Char) (e : ParseStreamError)
    (hsb : utf8Decode sb = some text) (hstream : Stream.fromStr text = .error e) :
    ∀ (pre : List (List Nat)) (streams : List Stream),
      parseStreams pre = .ok streams →
      parseStreams (pre ++ sb :: rest) = .error (.invalidStream e) := by
  intro pre
  induction pre with
  | nil =>
    intro streams _
    rw [List.nil_append]
    simp only [parseStreams, hsb, hstream]
  | cons p ps ih =>
    intro streams hok
    rw [List.cons_append]
    simp only [parseStreams] at hok ⊢
    cases hd : utf8Decode p with
    | none => rw [hd] at hok; simp at hok
    | some t =>
      rw [hd] at hok
      simp only at hok ⊢
      cases hf : Stream.fromStr t with
      | error e2 => rw [hf] at hok; simp at hok
      | ok s =>
        rw [hf] at hok
        simp only at hok ⊢
        cases hps : parseStreams ps with
        | error e2 => rw [hps] at hok; exact Except.noConfusion hok
        | ok l =>
          rw [ih l hps]
          rfl

/-! ### Claim theorems -/

/-- C4: for every array whose first element decodes (after lowercase
normalization) to "publish" and which carries a number of trailing
elements other than exactly 2, decoding fails with
`InvalidNumberOfArguments { expected: 2 }`. -/
theorem publish_wrong_arg_count (cmd : List Nat) (name : List Char)
    (args : List (List Nat))
    (hname : utf8Decode cmd = some name)
    (hlow : rustToLowercase name = "publish".toList)
    (hlen : args.length ≠ 2) :
    fromResp (.array (.bulkString cmd :: args.map RespValue.bulkString)) =
      .error (.invalidNumberOfArguments 2) :=
  publish_count_helper cmd name args hname hlow hlen

/-- Witness for C4: decoding "publish" with no trailing argument. -/
theorem publish_wrong_arg_count_witness :
    fromResp (.array [.bulkString (utf8Encode "publish".toList)]) =
      .error (.invalidNumberOfArguments 2) :=
  publish_wrong_arg_count (utf8Encode "publish".toList) "publish".toList []
    (by decide) (by decide) (by decide)

/-- C9: decoding an empty array of byte-strings fails with
`MissingCommandName`. -/
theorem empty_array_missing_command_name :
    fromResp (.array []) = .error .missingCommandName := rfl

/-- C8: every wire value that is not shaped as an array of
byte-strings is rejected with `InvalidRespType` before any other
decode step: any value on which byte-string extraction fails, and in
particular a single bulk byte-string, or an array containing a
non-byte-string element. -/
theorem non_array_invalid_resp_type :
    (∀ v : RespValue, fromRespByteStrings v = none →
      fromResp v = .error .invalidRespType) ∧
    (∀ bs : List Nat, fromResp (.bulkString bs) = .error .invalidRespType) ∧
    (∀ (items : List RespValue) (x : RespValue), x ∈ items → x.isBulkString = false →
      fromResp (.array items) = .error .invalidRespType) := by
  refine ⟨fun v h => ?_, fun bs => rfl, fun items x hx hb => ?_⟩
  · simp only [fromResp]
    rw [h]
  · simp only [fromResp, fromRespByteStrings]
    rw [extractByteStrings_none_of_mem items x hx hb]

/-- Witness for C8: a simple-string wire value fails extraction and is
rejected with `InvalidRespType`. -/
theorem non_array_invalid_resp_type_witness :
    fromRespByteStrings (.simpleString []) = none ∧
    fromResp (.simpleString []) = .error .invalidRespType :=
  ⟨rfl, non_array_invalid_resp_type.1 (.simpleString []) rfl⟩

/-- C10: for a recognized "publish" command the argument-count check
takes precedence over per-argument validation: with exactly one
trailing element, or with three or more, decoding returns
`InvalidNumberOfArguments { expected: 2 }` whatever bytes the
trailing elements hold (they are quantified over all byte sequences,
so in particular invalid UTF-8 or invalid stream names); hence
`InvalidUtf8String` or `InvalidStream` can only arise from publish
arguments when exactly two trailing elements are present. -/
theorem publish_count_precedence :
    (∀ (cmd x : List Nat) (name : List Char),
      utf8Decode cmd = some name → rustToLowercase name = "publish".toList →
      fromResp (.array [.bulkString cmd, .bulkString x]) =
        .error (.invalidNumberOfArguments 2)) ∧
    (∀ (cmd x y z : List Nat) (rest : List (List Nat)) (name : List Char),
      utf8Decode cmd = some name → rustToLowercase name = "publish".toList →
      fromResp (.array (.bulkString cmd :: .bulkString x :: .bulkString y ::
          .bulkString z :: rest.map RespValue.bulkString)) =
        .error (.invalidNumberOfArguments 2)) := by
  constructor
  · intro cmd x name hname hlow
    exact publish_count_helper cmd name [x] hname hlow (by simp)
  · intro cmd x y z rest name hname hlow
    have h := publish_count_helper cmd name (x :: y :: z :: rest) hname hlow (by simp)
    simpa using h

/-- Witness for C10: one trailing argument made of invalid UTF-8
bytes, and three trailing arguments the first of which is an invalid
(empty) stream name, both rejected by count. -/
theorem publish_count_precedence_witness :
    fromResp (.array [.bulkString (utf8Encode "publish".toList), .bulkString [255]]) =
      .error (.invalidNumberOfArguments 2) ∧
    fromResp (.array [.bulkString (utf8Encode "publish".toList), .bulkString [],
        .bulkString [254], .bulkString [1]]) =
      .error (.invalidNumberOfArguments 2) :=
  ⟨publish_count_precedence.1 (utf8Encode "publish".toList) [255] "publish".toList
      (by decide) (by decide),
    publish_count_precedence.2 (utf8Encode "publish".toList) [] [254] [1] []
      "publish".toList (by decide) (by decide)⟩

/-- C5: when decoding a well-formed publish (exactly two trailing
elements, the first a valid stream name), the event payload bytes are
never UTF-8-validated or transformed: the decoded command's event
field is the second trailing element itself, for every byte sequence,
invalid UTF-8 included. -/
theorem publish_event_verbatim (cmd sb event : List Nat) (name text : List Char)
    (sn : StreamName)
    (hname : utf8Decode cmd = some name)
    (hlow : rustToLowercase name = "publish".toList)
    (hsb : utf8Decode sb = some text)
    (hstream : StreamName.fromStr text = .ok sn) :
    fromResp (.array [.bulkString cmd, .bulkString sb, .bulkString event]) =
      .ok (.publish sn event) := by
  have hbytes := fromRespByteStrings_cons cmd [sb, event]
  simp only [List.map_cons, List.map_nil] at hbytes
  simp only [fromResp]
  rw [hbytes]
  simp only [hname, hlow, hsb, hstream]
  simp

/-- Witness for C5: the event `[0xFF, 0xFE, 0x00]` is not valid UTF-8
and is carried through decoding byte for byte. -/
theorem publish_event_verbatim_witness :
    utf8Decode [0xFF, 0xFE, 0] = none ∧
    fromResp (.array [.bulkString (utf8Encode "publish".toList),
        .bulkString (utf8Encode "mystream".toList), .bulkString [0xFF, 0xFE, 0]]) =
      .ok (.publish ⟨"mystream".toList⟩ [0xFF, 0xFE, 0]) :=
  ⟨by decide,
    publish_event_verbatim (utf8Encode "publish".toList)
      (utf8Encode "mystream".toList) [0xFF, 0xFE, 0] "publish".toList
      "mystream".toList ⟨"mystream".toList⟩
      (by decide) (by decide) (by decide) (by decide)⟩

/-- C6: for every array whose first element is valid UTF-8 but, after
lowercase normalization, is neither "publish" nor "subscribe",
decoding fails with `UnknownCommand` carrying exactly the normalized
(lowercased) form of that name. -/
theorem unknown_command_lowercased (cmd : List Nat) (name : List Char)
    (args : List (List Nat))
    (hname : utf8Decode cmd = some name)
    (hpub : rustToLowercase name ≠ "publish".toList)
    (hsub : rustToLowercase name ≠ "subscribe".toList) :
    fromResp (.array (.bulkString cmd :: args.map RespValue.bulkString)) =
      .error (.unknownCommand (rustToLowercase name)) := by
  have hbytes := fromRespByteStrings_cons cmd args
  simp only [fromResp]
  rw [hbytes]
  simp only [hname]
  rw [if_neg hpub, if_neg hsub]

/-- Witness for C6: the name "PING" decodes to the unknown command
"ping", lowercased. -/
theorem unknown_command_lowercased_witness :
    fromResp (.array [.bulkString (utf8Encode "PING".toList)]) =
      .error (.unknownCommand (rustToLowercase "PING".toList)) ∧
    rustToLowercase "PING".toList = "ping".toList :=
  ⟨unknown_command_lowercased (utf8Encode "PING".toList) "PING".toList []
      (by decide) (by decide) (by decide),
    by decide⟩

/-- C7: whenever a stream-name or stream-specifier argument fails
domain-level parsing, decoding fails with `InvalidStream` wrapping
the collaborator's error value unchanged: for publish, the
`StreamNameError` produced by `StreamName::from_str` is carried
inside `ParseStreamError::StreamNameError` exactly as produced (the
lifting used by `From<StreamNameError>`, `command.rs` lines 82-86);
for subscribe, the `ParseStreamError` produced by `Stream::from_str`
is carried as is, at whatever position the failing specifier sits:
any list of successfully parsed specifiers may precede it and any
byte-strings may follow it. -/
theorem invalid_stream_wraps_cause :
    (∀ (cmd sb event : List Nat) (name text : List Char) (e : StreamNameError),
      utf8Decode cmd = some name → rustToLowercase name = "publish".toList →
      utf8Decode sb = some text → StreamName.fromStr text = .error e →
      fromResp (.array [.bulkString cmd, .bulkString sb, .bulkString event]) =
        .error (.invalidStream (.streamNameError e))) ∧
    (∀ (cmd sb : List Nat) (pre rest : List (List Nat)) (streams : List Stream)
        (name text : List Char) (e : ParseStreamError),
      utf8Decode cmd = some name → rustToLowercase name = "subscribe".toList →
      parseStreams pre = .ok streams →
      utf8Decode sb = some text → Stream.fromStr text = .error e →
      fromResp (.array (.bulkString cmd ::
          (pre ++ sb :: rest).map RespValue.bulkString)) =
        .error (.invalidStream e)) := by
  constructor
  · intro cmd sb event name text e hname hlow hsb hstream
    have hbytes := fromRespByteStrings_cons cmd [sb, event]
    simp only [List.map_cons, List.map_nil] at hbytes
    simp only [fromResp]
    rw [hbytes]
    simp [hname, hlow, hsb, hstream]
  · intro cmd sb pre rest streams name text e hname hlow hpre hsb hstream
    have hbytes := fromRespByteStrings_cons cmd (pre ++ sb :: rest)
    have hne : rustToLowercase name ≠ "publish".toList := by
      rw [hlow]; decide
    have hps := parseStreams_error_after sb rest text e hsb hstream pre streams hpre
    simp only [fromResp]
    rw [hbytes]
    simp [hname, hlow, hne, hps]
    rfl

/-- Witness for C7: publish with a stream name holding a space fails
with the exact `InvalidChar` cause; subscribe on
["subscribe", "ok", "a:xy"], where the valid specifier "ok" precedes
the failing one, fails with the exact `InvalidReadFrom` cause. -/
theorem invalid_stream_wraps_cause_witness :
    fromResp (.array [.bulkString (utf8Encode "publish".toList),
        .bulkString (utf8Encode "b d".toList), .bulkString [7]]) =
      .error (.invalidStream (.streamNameError (.invalidChar ' '))) ∧
    fromResp (.array [.bulkString (utf8Encode "subscribe".toList),
        .bulkString (utf8Encode "ok".toList),
        .bulkString (utf8Encode "a:xy".toList)]) =
      .error (.invalidStream .invalidReadFrom) :=
  ⟨invalid_stream_wraps_cause.1 (utf8Encode "publish".toList)
      (utf8Encode "b d".toList) [7] "publish".toList "b d".toList
      (.invalidChar ' ') (by decide) (by decide) (by decide) (by decide),
    invalid_stream_wraps_cause.2 (utf8Encode "subscribe".toList)
      (utf8Encode "a:xy".toList) [utf8Encode "ok".toList] []
      [⟨⟨"ok".toList⟩, none⟩] "subscribe".toList "a:xy".toList
      .invalidReadFrom (by decide) (by decide) (by decide) (by decide)
      (by decide)⟩

/-- C1: for every valid stream identifier and every byte sequence
(empty and non-UTF-8 payloads included), decoding the encoding of
`Publish { stream, event }` yields a structurally equal
`Publish { stream, event }`. -/
theorem publish_roundtrip (chars : List Char) (event : List Nat)
    (h : validStreamName chars = true) :
    fromResp (commandIntoResp (.publish ⟨chars⟩ event)) =
      .ok (.publish ⟨chars⟩ event) := by
  have hascii : ∀ c ∈ chars, c.toNat < 128 :=
    fun c hc => isNameChar_lt_128 c ((validStreamName_spec chars h).2 c hc)
  have hbytes := fromRespByteStrings_cons (utf8Encode "publish".toList)
    [utf8Encode chars, event]
  simp only [List.map_cons, List.map_nil] at hbytes
  have hp : utf8Decode (utf8Encode "publish".toList) = some "publish".toList := by
    decide
  have hlow : rustToLowercase "publish".toList = "publish".toList := by decide
  simp only [commandIntoResp, fromResp]
  rw [hbytes]
  simp only [hp, hlow, utf8Decode_encode_ascii chars hascii,
    streamNameFromStr_valid chars h]
  simp

/-- Witness for C1: the valid name "mystream" with a non-UTF-8 event
payload round-trips. -/
theorem publish_roundtrip_witness :
    validStreamName "mystream".toList = true ∧
    fromResp (commandIntoResp (.publish ⟨"mystream".toList⟩ [0xC3])) =
      .ok (.publish ⟨"mystream".toList⟩ [0xC3]) :=
  ⟨by decide, publish_roundtrip "mystream".toList [0xC3] (by decide)⟩

/-- C2: for every list of valid stream subscription specifiers (the
empty list included), decoding the encoding of
`Subscribe { streams }` yields `Subscribe { streams }` with the same
specifiers in the same order; and decoding the one-element array
consisting of "subscribe" alone succeeds and yields `Subscribe` with
an empty stream list. -/
theorem subscribe_roundtrip :
    (∀ streams : List Stream,
      (∀ s ∈ streams, validStreamName s.name.chars = true) →
      fromResp (commandIntoResp (.subscribe streams)) = .ok (.subscribe streams)) ∧
    fromResp (.array [.bulkString (utf8Encode "subscribe".toList)]) =
      .ok (.subscribe []) := by
  constructor
  · intro streams h
    have hmap : streams.map (fun s => RespValue.bulkString (utf8Encode s.toChars)) =
        (streams.map (fun s => utf8Encode s.toChars)).map RespValue.bulkString := by
      rw [List.map_map]
      rfl
    have hbytes := fromRespByteStrings_cons (utf8Encode "subscribe".toList)
      (streams.map (fun s => utf8Encode s.toChars))
    have hs : utf8Decode (utf8Encode "subscribe".toList) =
        some "subscribe".toList := by decide
    have hlow : rustToLowercase "subscribe".toList = "subscribe".toList := by decide
    have hne : rustToLowercase "subscribe".toList ≠ "publish".toList := by decide
    simp only [commandIntoResp, fromResp, hmap]
    rw [hbytes]
    simp only [hs, hlow]
    rw [parseStreams_encoded streams h]
    simp [Except.map]
  · decide

/-- Witness for C2: a two-specifier subscription (one with a start
position) round-trips in order. -/
theorem subscribe_roundtrip_witness :
    fromResp (commandIntoResp (.subscribe
        [⟨⟨"a".toList⟩, none⟩, ⟨⟨"b".toList⟩, some 42⟩])) =
      .ok (.subscribe [⟨⟨"a".toList⟩, none⟩, ⟨⟨"b".toList⟩, some 42⟩]) :=
  subscribe_roundtrip.1 [⟨⟨"a".toList⟩, none⟩, ⟨⟨"b".toList⟩, some 42⟩]
    (by decide)

/-- C3 counterexample: the normalization applied by the decoder is
Rust's Unicode `str::to_lowercase`, not an ASCII-only rule: the
non-ASCII command name "À" (U+00C0, wire bytes `[0xC3, 0x80]`) is
altered by the normalization, and decoding reports the altered name
"à" (U+00E0) inside `UnknownCommand`, refuting the claim that
characters outside ASCII are not altered. -/
theorem lowercase_ascii_only_counterexample :
    utf8Decode [0xC3, 0x80] = some [Char.ofNat 0xC0] ∧
    rustToLowercase [Char.ofNat 0xC0] ≠ [Char.ofNat 0xC0] ∧
    fromResp (.array [.bulkString [0xC3, 0x80]]) =
      .error (.unknownCommand [Char.ofNat 0xE0]) :=
  ⟨by decide, by decide, by decide⟩

/-- C3 amended: on decode the command name is normalized to lowercase
by a fixed, locale-independent Unicode rule before dispatch, so for
any two names that differ only in ASCII letter case, decoding behaves
identically on every input; characters outside ASCII may also be
altered by the normalization. -/
theorem lowercase_case_insensitive_dispatch (bs1 bs2 : List Nat)
    (n1 n2 : List Char) (rest : List RespValue)
    (h1 : utf8Decode bs1 = some n1) (h2 : utf8Decode bs2 = some n2)
    (hcase : asciiCaseEqStr n1 n2 = true) :
    fromResp (.array (.bulkString bs1 :: rest)) =
      fromResp (.array (.bulkString bs2 :: rest)) := by
  have hlow := rustToLowercase_caseEq n1 n2 hcase
  cases hrest : extractByteStrings rest with
  | none =>
    simp [fromResp, fromRespByteStrings, extractByteStrings, hrest]
  | some args =>
    simp [fromResp, fromRespByteStrings, extractByteStrings, hrest, h1, h2, hlow]

/-- Witness for C3 amended: "PuBLish" and "publish" decode identically
on a one-argument array. -/
theorem lowercase_case_insensitive_dispatch_witness :
    fromResp (.array [.bulkString (utf8Encode "PuBLish".toList),
        .bulkString [255]]) =
      fromResp (.array [.bulkString (utf8Encode "publish".toList),
        .bulkString [255]]) :=
  lowercase_case_insensitive_dispatch (utf8Encode "PuBLish".toList)
    (utf8Encode "publish".toList) "PuBLish".toList "publish".toList
    [.bulkString [255]] (by decide) (by decide) (by decide)

end MeiliES
